import Mathlib

/-!
Shallow embedding of `neuralprophet/utils.py`: regularization lambda
scheduling, weight penalty functions, the symmetric total percentage
error metric, seasonal configuration derivation, and metric printing.

Numeric values are modelled over `ℚ` (and `ℝ` where the source uses
transcendental functions); tensors and date series are lists; Python
dict-lookup failures are modelled with `Except`.
-/

/-- The four shapes a seasonality period argument can take in the source:
the string "auto", the booleans True / False, or a numeric override. -/
inductive SeasonArg where
  | auto : SeasonArg
  | tru : SeasonArg
  | fls : SeasonArg
  | num : ℚ → SeasonArg
deriving DecidableEq

/-- A seasonality period record: its `arg` and its `resolution` field
(the source reads the incoming `resolution` as the default resolution). -/
structure SeasonPeriod where
  arg : SeasonArg
  resolution : ℤ
deriving DecidableEq

/-- The seasonality configuration: a `type` (e.g. "fourier") and an
ordered name-to-period mapping, modelled as an association list. -/
structure SeasonConfig where
  type : String
  periods : List (String × SeasonPeriod)
deriving DecidableEq

/-- Python `int()` applied to a numeric value: truncation toward zero. -/
def truncQ (q : ℚ) : ℤ := if 0 ≤ q then ⌊q⌋ else ⌈q⌉

/-- `get_regularization_lambda` from the source: absent sparsity or
sparsity at least 1 yields no lambda; otherwise `0.02 * (1/s - 1)`,
ramped by `epoch / delay` while `epoch < delay`. -/
def get_regularization_lambda (sparsity : Option ℚ)
    (lambda_delay_epochs : Option ℚ) (epoch : ℚ) : Option ℚ :=
  match sparsity with
  | none => none
  | some s =>
    if s < 1 then
      some (match lambda_delay_epochs with
        | some d => if epoch < d then 0.02 * (1 / s - 1) * epoch / d
                    else 0.02 * (1 / s - 1)
        | none => 0.02 * (1 / s - 1))
    else none

/-- `reg_func_trend` from the source: elementwise absolute value, an
optional dead-zone clamp `max (|w| - t) 0`, then the sum. -/
def reg_func_trend (weights : List ℚ) (threshold : Option ℚ) : ℚ :=
  match threshold with
  | some t => (weights.map (fun w => max (|w| - t) 0)).sum
  | none => (weights.map (fun w => |w|)).sum

/-- `symmetric_total_percentage_error` from the source:
`100 * sum |e - v| / (10e-9 + sum (|e| + |v|))`. -/
def symmetric_total_percentage_error (values estimates : List ℚ) : ℚ :=
  let sum_abs_diff := (List.zipWith (fun e v => |e - v|) estimates values).sum
  let sum_abs := (List.zipWith (fun e v => |e| + |v|) estimates values).sum
  100 * sum_abs_diff / (10e-9 + sum_abs)

/-- `season_config_to_model_dims` from the source: absent for an absent
config or an empty period mapping, else each period maps to its
resolution, doubled when the configuration type is "fourier". -/
def season_config_to_model_dims (season_config : Option SeasonConfig) :
    Option (List (String × ℤ)) :=
  match season_config with
  | none => none
  | some c =>
    if c.periods.length < 1 then none
    else some (c.periods.map (fun np =>
      (np.1, if c.type = "fourier" then 2 * np.2.resolution
             else np.2.resolution)))

/-- One day in nanoseconds: timestamps are modelled the way pandas stores
them, as 64-bit integer counts of nanoseconds, here as `ℤ`. -/
def nsPerDay : ℤ := 86400000000000

/-- Minimum of a list, as the source's `Series.min` on a nonempty series
(the empty case is never reached under the documented contract). -/
def listMin (l : List ℤ) : ℤ :=
  match l with
  | [] => 0
  | x :: xs => xs.foldl min x

/-- Maximum of a list, as the source's `Series.max` on a nonempty series. -/
def listMax (l : List ℤ) : ℤ :=
  match l with
  | [] => 0
  | x :: xs => xs.foldl max x

/-- `dates.diff()` dropped of its leading NaT: the consecutive
differences of the series in its given order. -/
def diffList (l : List ℤ) : List ℤ :=
  List.zipWith (fun b a => b - a) l.tail l

/-- The source's `min_dt`: the minimum over the nonzero consecutive
differences (the leading NaT and zero gaps are dropped by
`dt.values.nonzero()` plus skip-NaT `min`; `none` models NaT when every
difference is zero or the series is too short). -/
def minGap (l : List ℤ) : Option ℤ :=
  match (diffList l).filter (fun d => decide (d ≠ 0)) with
  | [] => none
  | x :: xs => some (xs.foldl min x)

/-- `span = last - first`. -/
def spanOf (l : List ℤ) : ℤ := listMax l - listMin l

/-- Comparison `min_dt >= t` under pandas NaT semantics: NaT compares
false against every timedelta. -/
def tdGE (m : Option ℤ) (t : ℤ) : Bool :=
  match m with
  | none => false
  | some g => decide (t ≤ g)

/-- The source's `auto_disable` dict: rules for the three built-in
seasonality names only (`Timedelta(weeks=2)` is 14 days and
`Timedelta(weeks=1)` is 7 days). -/
def autoDisable (dates : List ℤ) : List (String × Bool) :=
  [("yearly", decide (spanOf dates < 730 * nsPerDay)),
   ("weekly", decide (spanOf dates < 14 * nsPerDay) || tdGE (minGap dates) (7 * nsPerDay)),
   ("daily", decide (spanOf dates < 2 * nsPerDay) || tdGE (minGap dates) (1 * nsPerDay))]

/-- Lookup of a seasonality name in the `auto_disable` dict. -/
def flagOf (dates : List ℤ) (name : String) : Option Bool :=
  (autoDisable dates).lookup name

/-- Resolution of one period's `arg`, as in the source loop; a missing
`auto_disable` key is the Python `KeyError`. -/
def resolveArg (flags : List (String × Bool)) (name : String)
    (p : SeasonPeriod) : Except String ℤ :=
  match p.arg with
  | SeasonArg.auto =>
    match flags.lookup name with
    | some b => Except.ok (if b then 0 else p.resolution)
    | none => Except.error name
  | SeasonArg.tru => Except.ok p.resolution
  | SeasonArg.fls => Except.ok 0
  | SeasonArg.num q => Except.ok (truncQ q)

/-- The source's per-period loop: resolve each period in order, storing
the resolved resolution back into the period. -/
def resolvePeriods (flags : List (String × Bool)) :
    List (String × SeasonPeriod) → Except String (List (String × SeasonPeriod))
  | [] => Except.ok []
  | (n, p) :: rest =>
    match resolveArg flags n p with
    | Except.error e => Except.error e
    | Except.ok r =>
      match resolvePeriods flags rest with
      | Except.error e => Except.error e
      | Except.ok rs => Except.ok ((n, SeasonPeriod.mk p.arg r) :: rs)

/-- `set_auto_seasonalities` from the source: resolve every period, keep
the periods with positive resolution in order, and collapse to `none`
when none remain. -/
def set_auto_seasonalities (dates : List ℤ) (cfg : SeasonConfig) :
    Except String (Option SeasonConfig) :=
  match resolvePeriods (autoDisable dates) cfg.periods with
  | Except.error e => Except.error e
  | Except.ok resolved =>
    let newPeriods := resolved.filter (fun np => decide (0 < np.2.resolution))
    Except.ok (if 0 < newPeriods.length
               then some (SeasonConfig.mk cfg.type newPeriods) else none)

/-- The resolution rule exactly as the specification words it, used to
compare the source against the specification. -/
def claimResolution (dates : List ℤ) (name : String) (p : SeasonPeriod) : ℤ :=
  match p.arg with
  | SeasonArg.auto => if ((flagOf dates name).getD false) then 0 else p.resolution
  | SeasonArg.tru => p.resolution
  | SeasonArg.fls => 0
  | SeasonArg.num q => truncQ q

/-- The specification's `min_gap`: sort the dates, then the smallest
strictly-positive consecutive difference. -/
def specMinGap (dates : List ℤ) : Option ℤ :=
  let s := List.insertionSort (fun a b => a ≤ b) dates
  match (diffList s).filter (fun d => decide (0 < d)) with
  | [] => none
  | x :: xs => some (xs.foldl min x)

/-- Python `{**a, **b}` on string-keyed mappings: keys of `a` keep their
positions with values overridden by `b` where present, then the keys of
`b` that are not in `a` follow in their own order. -/
def pyDictMerge (a b : List (String × ℚ)) : List (String × ℚ) :=
  a.map (fun kv =>
    match b.find? (fun kv2 => kv2.1 == kv.1) with
    | some kv2 => (kv.1, kv2.2)
    | none => kv)
  ++ b.filter (fun kv2 => !(a.any (fun kv => kv.1 == kv2.1)))

/-- `DataFrame({**metrics}, index=[e+1]).to_string(...)` for a one-row
frame: a header line of the column names followed by a single value
line led by the index. A frame with no columns is `empty` in pandas and
renders as the three-line `Empty DataFrame` / `Columns: []` /
`Index: [...]` string instead. -/
def dfToString (row : List (String × ℚ)) (idx : ℕ) : List String :=
  match row with
  | [] =>
    ["Empty DataFrame", "Columns: []", "Index: [" ++ toString idx ++ "]"]
  | _ =>
    [String.intercalate " " (row.map Prod.fst),
     String.intercalate " " (toString idx :: row.map (fun kv => toString kv.2.num ++ "/" ++ toString kv.2.den))]

/-- The row that `print_epoch_metrics` displays: training metrics merged
with the validation metrics suffixed `_val`, when the latter are given
and nonempty. -/
def displayedRow (metrics : List (String × ℚ))
    (val_metrics : Option (List (String × ℚ))) : List (String × ℚ) :=
  match val_metrics with
  | some v =>
    if 0 < v.length then pyDictMerge metrics (v.map (fun kv => (kv.1 ++ "_val", kv.2)))
    else metrics
  | none => metrics

/-- `print_epoch_metrics` from the source, returning the printed lines:
the full two-line rendering at epoch 0, and only line index 1 (the value
line) for later epochs. -/
def print_epoch_metrics (metrics : List (String × ℚ))
    (val_metrics : Option (List (String × ℚ))) (e : ℕ) : List String :=
  let lines := dfToString (displayedRow metrics val_metrics) (e + 1)
  if 0 < e then [lines.getD 1 ""] else lines

/-- The elementwise shaping function of `reg_func_ar`:
`2 / (1 + exp(-3 * (1e-12 + |w|) ^ (1/3))) - 1`. -/
noncomputable def arElem (w : ℝ) : ℝ :=
  2 / (1 + Real.exp (-3 * ((1e-12 + |w|) ^ ((1 : ℝ) / 3)))) - 1

/-- `reg_func_ar` from the source: the arithmetic mean of `arElem` over
all weight elements. -/
noncomputable def reg_func_ar (weights : List ℝ) : ℝ :=
  (weights.map arElem).sum / weights.length

/-- C4: the lambda scheduler returns absent for absent sparsity or
sparsity at least 1; otherwise `0.02 * (1/s - 1)`, multiplied by
`epoch / delay` exactly when a delay is configured and `epoch < delay`,
so the result is `0` at epoch `0` and at `epoch = delay` it equals the
undelayed value. -/
theorem get_regularization_lambda_spec :
    (∀ d e, get_regularization_lambda none d e = none) ∧
    (∀ s d e, 1 ≤ s → get_regularization_lambda (some s) d e = none) ∧
    (∀ s e, s < 1 →
      get_regularization_lambda (some s) none e = some (0.02 * (1 / s - 1))) ∧
    (∀ s d e, s < 1 → e < d →
      get_regularization_lambda (some s) (some d) e = some (0.02 * (1 / s - 1) * e / d)) ∧
    (∀ s d e, s < 1 → d ≤ e →
      get_regularization_lambda (some s) (some d) e = some (0.02 * (1 / s - 1))) ∧
    (∀ s d, s < 1 → 0 < d →
      get_regularization_lambda (some s) (some d) 0 = some 0) ∧
    (∀ s d e, s < 1 →
      get_regularization_lambda (some s) (some d) d = get_regularization_lambda (some s) none e) := by
  refine ⟨fun d e => rfl, ?_, ?_, ?_, ?_, ?_, ?_⟩
  · intro s d e h
    simp [get_regularization_lambda, not_lt.mpr h]
  · intro s e h
    simp [get_regularization_lambda, h]
  · intro s d e h he
    simp [get_regularization_lambda, h, he]
  · intro s d e h he
    simp [get_regularization_lambda, h, not_lt.mpr he]
  · intro s d h hd
    simp [get_regularization_lambda, h, hd]
  · intro s d e h
    simp [get_regularization_lambda, h, lt_irrefl]

theorem get_regularization_lambda_spec_witness :
    ((1 : ℚ) / 2 < 1 ∧ (0 : ℚ) < 10) ∧
    get_regularization_lambda (some (1 / 2)) (some 10) 0 = some 0 :=
  ⟨⟨by norm_num, by norm_num⟩,
   get_regularization_lambda_spec.2.2.2.2.2.1 (1 / 2) 10 (by norm_num) (by norm_num)⟩

/-- C7: the trend penalty is the sum of `max (|w| - t) 0` under a
threshold and the sum of `|w|` otherwise; it vanishes when every
`|w| ≤ t`, and it is monotone in the elementwise absolute values. -/
theorem reg_func_trend_spec :
    (∀ (w : List ℚ) (t : ℚ),
      reg_func_trend w (some t) = (w.map (fun x => max (|x| - t) 0)).sum) ∧
    (∀ w : List ℚ, reg_func_trend w none = (w.map (fun x => |x|)).sum) ∧
    (∀ (w : List ℚ) (t : ℚ), (∀ x ∈ w, |x| ≤ t) → reg_func_trend w (some t) = 0) ∧
    (∀ (v w : List ℚ) (th : Option ℚ),
      List.Forall₂ (fun a b => |a| ≤ |b|) v w →
      reg_func_trend v th ≤ reg_func_trend w th) := by
  refine ⟨fun w t => rfl, fun w => rfl, ?_, ?_⟩
  · intro w t h
    apply List.sum_eq_zero
    intro y hy
    rcases List.mem_map.mp hy with ⟨x, hx, rfl⟩
    exact max_eq_right (sub_nonpos.mpr (h x hx))
  · intro v w th h
    cases th with
    | none =>
      induction h with
      | nil => simp [reg_func_trend]
      | cons hab htl ih =>
        simp only [reg_func_trend, List.map_cons, List.sum_cons] at ih ⊢
        exact add_le_add hab ih
    | some t =>
      induction h with
      | nil => simp [reg_func_trend]
      | cons hab htl ih =>
        simp only [reg_func_trend, List.map_cons, List.sum_cons] at ih ⊢
        exact add_le_add (max_le_max (sub_le_sub_right hab t) le_rfl) ih

theorem reg_func_trend_spec_witness :
    (∀ x ∈ [(1 : ℚ), -2], |x| ≤ 3) ∧ reg_func_trend [(1 : ℚ), -2] (some 3) = 0 :=
  ⟨by intro x hx; fin_cases hx <;> norm_num,
   reg_func_trend_spec.2.2.1 [1, -2] 3 (by intro x hx; fin_cases hx <;> norm_num)⟩

/-- C8: the dimension mapper is absent exactly for an absent config or
one with no periods; otherwise it maps each period, in configuration
order, to `2 * resolution` under the "fourier" kind and `resolution`
otherwise, producing one entry per period with matching keys. -/
theorem season_config_to_model_dims_spec :
    (∀ sc, season_config_to_model_dims sc = none ↔
      sc = none ∨ ∃ c, sc = some c ∧ c.periods = []) ∧
    (∀ c : SeasonConfig, c.periods ≠ [] →
      season_config_to_model_dims (some c) =
        some (c.periods.map (fun np =>
          (np.1, if c.type = "fourier" then 2 * np.2.resolution
                 else np.2.resolution)))) ∧
    (∀ (c : SeasonConfig) dims, season_config_to_model_dims (some c) = some dims →
      dims.map Prod.fst = c.periods.map Prod.fst ∧ dims.length = c.periods.length) := by
  refine ⟨?_, ?_, ?_⟩
  · intro sc
    cases sc with
    | none => simp [season_config_to_model_dims]
    | some c =>
      by_cases h : c.periods = []
      · simp [season_config_to_model_dims, h]
      · simp [season_config_to_model_dims, h, Nat.lt_one_iff, List.length_eq_zero]
  · intro c h
    simp [season_config_to_model_dims, Nat.lt_one_iff, List.length_eq_zero, h]
  · intro c dims hdims
    by_cases h : c.periods.length < 1
    · simp [season_config_to_model_dims, h] at hdims
    · simp only [season_config_to_model_dims, if_neg h, Option.some.injEq] at hdims
      subst hdims
      constructor
      · simp [List.map_map]
      · simp

theorem season_config_to_model_dims_spec_witness :
    (SeasonConfig.mk "fourier" [("yearly", SeasonPeriod.mk SeasonArg.tru 6)]).periods ≠ [] ∧
    season_config_to_model_dims (some (SeasonConfig.mk "fourier" [("yearly", SeasonPeriod.mk SeasonArg.tru 6)])) =
      some ((SeasonConfig.mk "fourier" [("yearly", SeasonPeriod.mk SeasonArg.tru 6)]).periods.map (fun np =>
        (np.1, if (SeasonConfig.mk "fourier" [("yearly", SeasonPeriod.mk SeasonArg.tru 6)]).type = "fourier"
               then 2 * np.2.resolution else np.2.resolution))) :=
  ⟨by simp,
   season_config_to_model_dims_spec.2.1
     (SeasonConfig.mk "fourier" [("yearly", SeasonPeriod.mk SeasonArg.tru 6)]) (by simp)⟩

theorem stpe_sums (l1 l2 : List ℚ) :
    0 ≤ (List.zipWith (fun e v => |e - v|) l1 l2).sum ∧
    (List.zipWith (fun e v => |e - v|) l1 l2).sum ≤
      (List.zipWith (fun e v => |e| + |v|) l1 l2).sum := by
  induction l1 generalizing l2 with
  | nil => simp
  | cons a as ih =>
    cases l2 with
    | nil => simp
    | cons b bs =>
      obtain ⟨h1, h2⟩ := ih bs
      simp only [List.zipWith_cons_cons, List.sum_cons]
      exact ⟨add_nonneg (abs_nonneg _) h1, add_le_add (abs_sub a b) h2⟩

theorem zipWith_sum_neg (l1 l2 : List ℚ) (f : ℚ → ℚ → ℚ)
    (hf : ∀ a b, f (-a) (-b) = f a b) :
    List.zipWith f (l1.map Neg.neg) (l2.map Neg.neg) = List.zipWith f l1 l2 := by
  induction l1 generalizing l2 with
  | nil => simp
  | cons a as ih =>
    cases l2 with
    | nil => simp
    | cons b bs => simp [hf, ih]

/-- C5: the symmetric percentage error equals
`100 * sum |e - v| / (1e-8 + sum (|e| + |v|))` (the source's `10e-9`
equals `1e-8`), vanishes on identical inputs, is invariant under
negating both inputs, and always lies in `[0, 100)`. -/
theorem symmetric_total_percentage_error_spec (values estimates : List ℚ)
    (h : values.length = estimates.length) :
    symmetric_total_percentage_error values estimates =
      100 * (List.zipWith (fun e v => |e - v|) estimates values).sum /
        ((1e-8 : ℚ) + (List.zipWith (fun e v => |e| + |v|) estimates values).sum) ∧
    symmetric_total_percentage_error values values = 0 ∧
    symmetric_total_percentage_error (values.map Neg.neg) (estimates.map Neg.neg) =
      symmetric_total_percentage_error values estimates ∧
    0 ≤ symmetric_total_percentage_error values estimates ∧
    symmetric_total_percentage_error values estimates < 100 := by
  obtain ⟨hD, hDS⟩ := stpe_sums estimates values
  have hS : 0 ≤ (List.zipWith (fun e v => |e| + |v|) estimates values).sum :=
    le_trans hD hDS
  have hden : (0 : ℚ) <
      10e-9 + (List.zipWith (fun e v => |e| + |v|) estimates values).sum := by
    have h9 : (0 : ℚ) < 10e-9 := by norm_num
    linarith
  refine ⟨?_, ?_, ?_, ?_, ?_⟩
  · have h98 : (10e-9 : ℚ) = 1e-8 := by norm_num
    simp only [symmetric_total_percentage_error, h98]
  · simp [symmetric_total_percentage_error, List.zipWith_same, sub_self]
  · simp only [symmetric_total_percentage_error]
    rw [zipWith_sum_neg estimates values _ (fun a b => by rw [neg_sub_neg, abs_sub_comm]),
        zipWith_sum_neg estimates values _ (fun a b => by rw [abs_neg, abs_neg])]
  · exact div_nonneg (mul_nonneg (by norm_num) hD) hden.le
  · rw [symmetric_total_percentage_error, div_lt_iff₀ hden]
    nlinarith [hDS, hden]

theorem symmetric_total_percentage_error_spec_witness :
    ([(1 : ℚ), 2].length = [(3 : ℚ), 5].length) ∧
    (symmetric_total_percentage_error [(1 : ℚ), 2] [(3 : ℚ), 5] =
      100 * (List.zipWith (fun e v => |e - v|) [(3 : ℚ), 5] [(1 : ℚ), 2]).sum /
        ((1e-8 : ℚ) + (List.zipWith (fun e v => |e| + |v|) [(3 : ℚ), 5] [(1 : ℚ), 2]).sum) ∧
    symmetric_total_percentage_error [(1 : ℚ), 2] [(1 : ℚ), 2] = 0 ∧
    symmetric_total_percentage_error ([(1 : ℚ), 2].map Neg.neg) ([(3 : ℚ), 5].map Neg.neg) =
      symmetric_total_percentage_error [(1 : ℚ), 2] [(3 : ℚ), 5] ∧
    0 ≤ symmetric_total_percentage_error [(1 : ℚ), 2] [(3 : ℚ), 5] ∧
    symmetric_total_percentage_error [(1 : ℚ), 2] [(3 : ℚ), 5] < 100) :=
  ⟨rfl, symmetric_total_percentage_error_spec [1, 2] [3, 5] rfl⟩

/-- C2 counterexample: on the unsorted date series (days 3, 1, 10), the
source's `min_dt` is the minimum nonzero difference in given order,
which is -2 days, while the smallest strictly-positive difference of
the sorted series is 2 days. -/
theorem minGap_unsorted_counterexample :
    minGap [3 * nsPerDay, 1 * nsPerDay, 10 * nsPerDay] = some (-2 * nsPerDay) ∧
    specMinGap [3 * nsPerDay, 1 * nsPerDay, 10 * nsPerDay] = some (2 * nsPerDay) ∧
    minGap [3 * nsPerDay, 1 * nsPerDay, 10 * nsPerDay] ≠
      specMinGap [3 * nsPerDay, 1 * nsPerDay, 10 * nsPerDay] := by
  refine ⟨by decide, by decide, by decide⟩

theorem diffList_nonneg (l : List ℤ) (h : List.Sorted (· ≤ ·) l) :
    ∀ d ∈ diffList l, 0 ≤ d := by
  induction l with
  | nil => simp [diffList]
  | cons a l ih =>
    cases l with
    | nil => simp [diffList]
    | cons b t =>
      intro d hd
      simp only [diffList, List.tail_cons, List.zipWith_cons_cons] at hd
      rcases List.mem_cons.mp hd with rfl | hmem
      · have hab : a ≤ b := (List.sorted_cons.mp h).1 b (List.mem_cons_self b t)
        linarith
      · have hs : List.Sorted (· ≤ ·) (b :: t) := (List.sorted_cons.mp h).2
        exact ih hs d (by simpa [diffList] using hmem)

/-- C2 amended: for dates already in ascending order, the source's
`min_dt` is the smallest strictly-positive difference between
consecutive sorted dates, zero gaps from duplicates ignored. -/
theorem minGap_sorted_eq_specMinGap (dates : List ℤ)
    (h : List.Sorted (· ≤ ·) dates) : minGap dates = specMinGap dates := by
  have hsort : List.insertionSort (fun a b => a ≤ b) dates = dates :=
    h.insertionSort_eq
  have hfil : (diffList dates).filter (fun d => decide (d ≠ 0)) =
      (diffList dates).filter (fun d => decide (0 < d)) := by
    apply List.filter_congr
    intro d hd
    have hnn := diffList_nonneg dates h d hd
    by_cases h0 : d = 0
    · simp [h0]
    · simp [h0, lt_of_le_of_ne hnn (Ne.symm h0)]
  simp only [minGap, specMinGap, hsort, hfil]

theorem minGap_sorted_eq_specMinGap_witness :
    List.Sorted (fun a b => a ≤ b) [1 * nsPerDay, 3 * nsPerDay, 10 * nsPerDay] ∧
    minGap [1 * nsPerDay, 3 * nsPerDay, 10 * nsPerDay] =
      specMinGap [1 * nsPerDay, 3 * nsPerDay, 10 * nsPerDay] :=
  ⟨by decide, minGap_sorted_eq_specMinGap _ (by decide)⟩

/-- C3: with `span = max date - min date` and `min_gap` the source's
minimum nonzero gap, the auto-disable flags are exactly: yearly iff
`span < 730` days, weekly iff `span < 14` days or `min_gap ≥ 7` days,
daily iff `span < 2` days or `min_gap ≥ 1` day. -/
theorem autoDisable_spec (dates : List ℤ) (g : ℤ) (h : minGap dates = some g) :
    (flagOf dates "yearly" = some true ↔ spanOf dates < 730 * nsPerDay) ∧
    (flagOf dates "weekly" = some true ↔
      (spanOf dates < 14 * nsPerDay ∨ 7 * nsPerDay ≤ g)) ∧
    (flagOf dates "daily" = some true ↔
      (spanOf dates < 2 * nsPerDay ∨ 1 * nsPerDay ≤ g)) := by
  refine ⟨?_, ?_, ?_⟩ <;>
    simp [flagOf, autoDisable, List.lookup, tdGE, h]

theorem autoDisable_spec_witness :
    minGap [0, nsPerDay, 800 * nsPerDay] = some nsPerDay ∧
    ((flagOf [0, nsPerDay, 800 * nsPerDay] "yearly" = some true ↔
        spanOf [0, nsPerDay, 800 * nsPerDay] < 730 * nsPerDay) ∧
     (flagOf [0, nsPerDay, 800 * nsPerDay] "weekly" = some true ↔
        (spanOf [0, nsPerDay, 800 * nsPerDay] < 14 * nsPerDay ∨ 7 * nsPerDay ≤ nsPerDay)) ∧
     (flagOf [0, nsPerDay, 800 * nsPerDay] "daily" = some true ↔
        (spanOf [0, nsPerDay, 800 * nsPerDay] < 2 * nsPerDay ∨ 1 * nsPerDay ≤ nsPerDay))) :=
  ⟨by decide, autoDisable_spec _ nsPerDay (by decide)⟩

theorem resolvePeriods_ok (dates : List ℤ) (ps : List (String × SeasonPeriod))
    (h : ∀ np ∈ ps, np.2.arg = SeasonArg.auto → (flagOf dates np.1).isSome) :
    resolvePeriods (autoDisable dates) ps =
      Except.ok (ps.map (fun np =>
        (np.1, SeasonPeriod.mk np.2.arg (claimResolution dates np.1 np.2)))) := by
  induction ps with
  | nil => rfl
  | cons hd tl ih =>
    obtain ⟨n, p⟩ := hd
    have hhd := h (n, p) (List.mem_cons_self _ _)
    have htl : ∀ np ∈ tl, np.2.arg = SeasonArg.auto → (flagOf dates np.1).isSome :=
      fun np hnp => h np (List.mem_cons_of_mem _ hnp)
    simp only [resolvePeriods, List.map_cons]
    rw [ih htl]
    cases harg : p.arg with
    | auto =>
      obtain ⟨b, hb⟩ := Option.isSome_iff_exists.mp (hhd harg)
      have hb2 : (autoDisable dates).lookup n = some b := hb
      simp [resolveArg, claimResolution, harg, hb2, flagOf]
    | tru => simp [resolveArg, claimResolution, harg]
    | fls => simp [resolveArg, claimResolution, harg]
    | num q => simp [resolveArg, claimResolution, harg]

/-- C1: when every auto-argument period has an auto-disable flag, the
resolver succeeds; each period resolves as the specification states
(auto: 0 under a true flag, else the default; true: default; false: 0;
numeric: its integer conversion), the mapping is rebuilt keeping exactly
the positive-resolution entries in order, and it is absent exactly when
no periods remain. -/
theorem set_auto_seasonalities_spec (dates : List ℤ) (cfg : SeasonConfig)
    (h : ∀ np ∈ cfg.periods, np.2.arg = SeasonArg.auto → (flagOf dates np.1).isSome) :
    set_auto_seasonalities dates cfg =
      Except.ok
        (let kept := (cfg.periods.map (fun np =>
            (np.1, SeasonPeriod.mk np.2.arg (claimResolution dates np.1 np.2)))).filter
            (fun np => decide (0 < np.2.resolution));
         if kept = [] then none else some (SeasonConfig.mk cfg.type kept)) := by
  simp only [set_auto_seasonalities, resolvePeriods_ok dates cfg.periods h]
  by_cases hk : (cfg.periods.map (fun np =>
      (np.1, SeasonPeriod.mk np.2.arg (claimResolution dates np.1 np.2)))).filter
      (fun np => decide (0 < np.2.resolution)) = []
  · simp [hk]
  · simp [hk, List.length_pos.mpr hk]

theorem set_auto_seasonalities_spec_witness :
    (∀ np ∈ (SeasonConfig.mk "fourier"
        [("yearly", SeasonPeriod.mk SeasonArg.auto 6),
         ("daily", SeasonPeriod.mk SeasonArg.auto 4),
         ("extra", SeasonPeriod.mk (SeasonArg.num 5) 3)]).periods,
      np.2.arg = SeasonArg.auto → (flagOf [0, nsPerDay, 800 * nsPerDay] np.1).isSome) ∧
    set_auto_seasonalities [0, nsPerDay, 800 * nsPerDay]
      (SeasonConfig.mk "fourier"
        [("yearly", SeasonPeriod.mk SeasonArg.auto 6),
         ("daily", SeasonPeriod.mk SeasonArg.auto 4),
         ("extra", SeasonPeriod.mk (SeasonArg.num 5) 3)]) =
      Except.ok
        (let kept := ((SeasonConfig.mk "fourier"
            [("yearly", SeasonPeriod.mk SeasonArg.auto 6),
             ("daily", SeasonPeriod.mk SeasonArg.auto 4),
             ("extra", SeasonPeriod.mk (SeasonArg.num 5) 3)]).periods.map (fun np =>
            (np.1, SeasonPeriod.mk np.2.arg
              (claimResolution [0, nsPerDay, 800 * nsPerDay] np.1 np.2)))).filter
            (fun np => decide (0 < np.2.resolution));
         if kept = [] then none
         else some (SeasonConfig.mk (SeasonConfig.mk "fourier"
            [("yearly", SeasonPeriod.mk SeasonArg.auto 6),
             ("daily", SeasonPeriod.mk SeasonArg.auto 4),
             ("extra", SeasonPeriod.mk (SeasonArg.num 5) 3)]).type kept)) :=
  ⟨by decide, set_auto_seasonalities_spec _ _ (by decide)⟩

theorem resolvePeriods_error_of_mem (flags : List (String × Bool))
    (ps : List (String × SeasonPeriod)) (n : String) (p : SeasonPeriod)
    (hmem : (n, p) ∈ ps) (herr : resolveArg flags n p = Except.error n) :
    ∃ e, resolvePeriods flags ps = Except.error e := by
  induction ps with
  | nil => cases hmem
  | cons hd tl ih =>
    rcases List.mem_cons.mp hmem with heq | hmem2
    · subst heq
      exact ⟨n, by simp [resolvePeriods, herr]⟩
    · obtain ⟨m, q⟩ := hd
      cases hr : resolveArg flags m q with
      | error e => exact ⟨e, by simp [resolvePeriods, hr]⟩
      | ok r =>
        obtain ⟨e, he⟩ := ih hmem2
        exact ⟨e, by simp [resolvePeriods, hr, he]⟩

/-- C10: a configuration containing a period whose name is none of
"yearly", "weekly", "daily" and whose argument is auto makes the
resolver fail with a key-lookup error on the auto-disable dict. -/
theorem set_auto_seasonalities_keyerror (dates : List ℤ) (cfg : SeasonConfig)
    (n : String) (p : SeasonPeriod) (hmem : (n, p) ∈ cfg.periods)
    (harg : p.arg = SeasonArg.auto)
    (hy : n ≠ "yearly") (hw : n ≠ "weekly") (hd : n ≠ "daily") :
    ∃ e, set_auto_seasonalities dates cfg = Except.error e := by
  have hlook : (autoDisable dates).lookup n = none := by
    simp [autoDisable, List.lookup, beq_eq_false_iff_ne.mpr hy,
      beq_eq_false_iff_ne.mpr hw, beq_eq_false_iff_ne.mpr hd]
  have herr : resolveArg (autoDisable dates) n p = Except.error n := by
    simp [resolveArg, harg, hlook]
  obtain ⟨e, he⟩ := resolvePeriods_error_of_mem (autoDisable dates) cfg.periods n p hmem herr
  exact ⟨e, by simp [set_auto_seasonalities, he]⟩

theorem set_auto_seasonalities_keyerror_witness :
    (("monthly", SeasonPeriod.mk SeasonArg.auto 5) ∈
      (SeasonConfig.mk "additive" [("monthly", SeasonPeriod.mk SeasonArg.auto 5)]).periods ∧
     (SeasonPeriod.mk SeasonArg.auto 5).arg = SeasonArg.auto ∧
     ("monthly" : String) ≠ "yearly" ∧ ("monthly" : String) ≠ "weekly" ∧
     ("monthly" : String) ≠ "daily") ∧
    ∃ e, set_auto_seasonalities [0, nsPerDay]
      (SeasonConfig.mk "additive" [("monthly", SeasonPeriod.mk SeasonArg.auto 5)]) =
      Except.error e :=
  ⟨⟨by decide, by decide, by decide, by decide, by decide⟩,
   set_auto_seasonalities_keyerror [0, nsPerDay]
     (SeasonConfig.mk "additive" [("monthly", SeasonPeriod.mk SeasonArg.auto 5)])
     "monthly" (SeasonPeriod.mk SeasonArg.auto 5)
     (by decide) (by decide) (by decide) (by decide) (by decide)⟩

theorem pyDictMerge_disjoint (a b : List (String × ℚ))
    (h : ∀ kv ∈ a, ∀ kv2 ∈ b, kv.1 ≠ kv2.1) :
    pyDictMerge a b = a ++ b := by
  unfold pyDictMerge
  have hmap : ∀ kv ∈ a, (match b.find? (fun kv2 => kv2.1 == kv.1) with
      | some kv2 => (kv.1, kv2.2) | none => kv) = kv := by
    intro kv hkv
    have hf : b.find? (fun kv2 => kv2.1 == kv.1) = none := by
      rw [List.find?_eq_none]
      intro x hx
      simp only [beq_iff_eq]
      exact fun hxx => h kv hkv x hx hxx.symm
    rw [hf]
  have hfil : b.filter (fun kv2 => !(a.any (fun kv => kv.1 == kv2.1))) = b := by
    rw [List.filter_eq_self]
    intro kv2 hkv2
    simp only [Bool.not_eq_true', List.any_eq_false]
    intro kv hkv
    simp only [beq_iff_eq]
    exact h kv hkv kv2 hkv2
  rw [List.map_congr_left hmap, List.map_id', hfil]

/-- C9 counterexample: called at epoch index 0 with an empty metrics
mapping (and no validation metrics), the printer renders the zero-column
frame as the three-line `Empty DataFrame` string, so it does not print
two lines. -/
theorem print_epoch_metrics_empty_counterexample :
    print_epoch_metrics [] none 0 =
      ["Empty DataFrame", "Columns: []", "Index: [1]"] ∧
    (print_epoch_metrics [] none 0).length = 3 ∧
    ¬ (print_epoch_metrics [] none 0).length = 2 := by
  refine ⟨rfl, rfl, by decide⟩

/-- C9 amended: whenever the displayed row is nonempty (training and
validation metrics not both empty), the printer produces two lines
(header then values) at epoch index 0; it produces exactly one line for
every positive epoch index; a nonempty validation mapping joins the
displayed row with each key suffixed `_val`, after all training
entries. -/
theorem print_epoch_metrics_spec :
    (∀ m v, displayedRow m v ≠ [] → (print_epoch_metrics m v 0).length = 2) ∧
    (∀ m v e, 0 < e → (print_epoch_metrics m v e).length = 1) ∧
    (∀ m vl : List (String × ℚ), vl ≠ [] →
      (∀ kv ∈ m, ∀ kv2 ∈ vl, kv.1 ≠ kv2.1 ++ "_val") →
      displayedRow m (some vl) = m ++ vl.map (fun kv => (kv.1 ++ "_val", kv.2))) := by
  refine ⟨?_, ?_, ?_⟩
  · intro m v hrow
    simp only [print_epoch_metrics]
    cases hd : displayedRow m v with
    | nil => exact absurd hd hrow
    | cons kv rest => rfl
  · intro m v e he
    simp [print_epoch_metrics, he]
  · intro m vl hvl hdisj
    have hlen : 0 < vl.length := List.length_pos.mpr hvl
    simp only [displayedRow, if_pos hlen]
    apply pyDictMerge_disjoint
    intro kv hkv kv2 hkv2
    rcases List.mem_map.mp hkv2 with ⟨kv0, hkv0, rfl⟩
    exact hdisj kv hkv kv0 hkv0

theorem print_epoch_metrics_spec_witness :
    ((displayedRow [("loss", (1 : ℚ))] none ≠ [] ∧
      (print_epoch_metrics [("loss", (1 : ℚ))] none 0).length = 2) ∧
     (0 < 5 ∧ (print_epoch_metrics [("loss", (1 : ℚ))] none 5).length = 1) ∧
     (([("loss", (2 : ℚ))] : List (String × ℚ)) ≠ [] ∧
      (∀ kv ∈ [("loss", (1 : ℚ))], ∀ kv2 ∈ [("loss", (2 : ℚ))], kv.1 ≠ kv2.1 ++ "_val") ∧
      displayedRow [("loss", (1 : ℚ))] (some [("loss", (2 : ℚ))]) =
        [("loss", (1 : ℚ))] ++ [("loss", (2 : ℚ))].map (fun kv => (kv.1 ++ "_val", kv.2)))) :=
  ⟨⟨by simp [displayedRow],
    print_epoch_metrics_spec.1 _ _ (by simp [displayedRow])⟩,
   ⟨by decide, print_epoch_metrics_spec.2.1 _ _ 5 (by decide)⟩,
   ⟨by simp, by decide,
    print_epoch_metrics_spec.2.2 _ _ (by simp) (by decide)⟩⟩

theorem arElem_pos (w : ℝ) : 0 < arElem w := by
  have hc : (0 : ℝ) < 1e-12 + |w| := by positivity
  have hr : (0 : ℝ) < (1e-12 + |w|) ^ ((1 : ℝ) / 3) := Real.rpow_pos_of_pos hc _
  have ht : -3 * ((1e-12 + |w|) ^ ((1 : ℝ) / 3)) < 0 := by nlinarith
  have he1 : Real.exp (-3 * ((1e-12 + |w|) ^ ((1 : ℝ) / 3))) < 1 := by
    calc Real.exp (-3 * ((1e-12 + |w|) ^ ((1 : ℝ) / 3))) < Real.exp 0 :=
          Real.exp_lt_exp.mpr ht
      _ = 1 := Real.exp_zero
  have he0 : 0 < Real.exp (-3 * ((1e-12 + |w|) ^ ((1 : ℝ) / 3))) := Real.exp_pos _
  have hden : 0 < 1 + Real.exp (-3 * ((1e-12 + |w|) ^ ((1 : ℝ) / 3))) := by linarith
  have h2 : 1 < 2 / (1 + Real.exp (-3 * ((1e-12 + |w|) ^ ((1 : ℝ) / 3)))) :=
    (one_lt_div hden).mpr (by linarith)
  unfold arElem
  linarith

theorem arElem_lt_one (w : ℝ) : arElem w < 1 := by
  have he0 : 0 < Real.exp (-3 * ((1e-12 + |w|) ^ ((1 : ℝ) / 3))) := Real.exp_pos _
  have hden : 0 < 1 + Real.exp (-3 * ((1e-12 + |w|) ^ ((1 : ℝ) / 3))) := by linarith
  have h2 : 2 / (1 + Real.exp (-3 * ((1e-12 + |w|) ^ ((1 : ℝ) / 3)))) < 2 := by
    rw [div_lt_iff₀ hden]
    nlinarith
  unfold arElem
  linarith

theorem arSum_le (l : List ℝ) : (l.map arElem).sum ≤ l.length := by
  induction l with
  | nil => simp
  | cons a as ih =>
    simp only [List.map_cons, List.sum_cons, List.length_cons]
    push_cast
    have h1 := (arElem_lt_one a).le
    linarith

theorem arSum_pos (l : List ℝ) (h : l ≠ []) : 0 < (l.map arElem).sum := by
  cases l with
  | nil => exact absurd rfl h
  | cons a as =>
    simp only [List.map_cons, List.sum_cons]
    have h1 := arElem_pos a
    have h2 : 0 ≤ (as.map arElem).sum := by
      apply List.sum_nonneg
      intro x hx
      rcases List.mem_map.mp hx with ⟨w, _, rfl⟩
      exact (arElem_pos w).le
    linarith

theorem arSum_lt (l : List ℝ) (h : l ≠ []) : (l.map arElem).sum < l.length := by
  cases l with
  | nil => exact absurd rfl h
  | cons a as =>
    simp only [List.map_cons, List.sum_cons, List.length_cons]
    push_cast
    have h1 := arElem_lt_one a
    have h2 := arSum_le as
    linarith

theorem reg_func_ar_replicate (n : ℕ) (hn : 0 < n) :
    reg_func_ar (List.replicate n (0 : ℝ)) = arElem 0 := by
  rw [reg_func_ar, List.map_replicate, List.sum_replicate, List.length_replicate,
    nsmul_eq_mul]
  exact mul_div_cancel_left₀ _ (Nat.cast_ne_zero.mpr hn.ne')

theorem arElem_zero_le : arElem 0 ≤ 3e-4 := by
  have habs : ((1e-12 : ℝ) + |(0 : ℝ)|) = 1e-12 := by simp
  have hcube : ((1e-12 : ℝ)) ^ ((1 : ℝ) / 3) = 1e-4 := by
    have h4 : (0 : ℝ) ≤ 1e-4 := by norm_num
    have h12 : ((1e-12) : ℝ) = (1e-4 : ℝ) ^ (3 : ℕ) := by norm_num
    rw [h12, ← Real.rpow_natCast (1e-4 : ℝ) 3, ← Real.rpow_mul h4]
    rw [show ((3 : ℕ) : ℝ) * (1 / 3) = 1 by push_cast; norm_num, Real.rpow_one]
  have hexp : (1 : ℝ) - 3e-4 ≤ Real.exp (-(3e-4 : ℝ)) := by
    have := Real.add_one_le_exp (-(3e-4 : ℝ))
    linarith
  have hden : (0 : ℝ) < 2 - 3e-4 := by norm_num
  have hden2 : (0 : ℝ) < 1 + Real.exp (-(3e-4 : ℝ)) := by
    have := Real.exp_pos (-(3e-4 : ℝ))
    linarith
  have hle : 2 / (1 + Real.exp (-(3e-4 : ℝ))) ≤ 2 / (2 - 3e-4) :=
    div_le_div_of_nonneg_left (by norm_num) hden (by linarith)
  have hfin : 2 / (2 - (3e-4 : ℝ)) ≤ 1 + 3e-4 := by
    rw [div_le_iff₀ hden]
    nlinarith
  have harg : arElem 0 = 2 / (1 + Real.exp (-(3e-4 : ℝ))) - 1 := by
    unfold arElem
    rw [habs, hcube]
    norm_num
  rw [harg]
  linarith

/-- C6: the autoregressive penalty, the mean of
`2 / (1 + exp(-3 * (1e-12 + |w|)^(1/3))) - 1` over the elements, lies
in `[0, 1)` for every nonempty weight list, and on an all-zero list it
is below `1/1000` (approximately 0). -/
theorem reg_func_ar_spec (weights : List ℝ) (h : weights ≠ []) :
    (0 ≤ reg_func_ar weights ∧ reg_func_ar weights < 1) ∧
    (∀ n : ℕ, 0 < n →
      0 ≤ reg_func_ar (List.replicate n (0 : ℝ)) ∧
      reg_func_ar (List.replicate n (0 : ℝ)) < 1 / 1000) := by
  have hlen : (0 : ℝ) < weights.length := by
    exact_mod_cast List.length_pos.mpr h
  refine ⟨⟨?_, ?_⟩, ?_⟩
  · exact div_nonneg (arSum_pos weights h).le hlen.le
  · rw [reg_func_ar, div_lt_one hlen]
    exact arSum_lt weights h
  · intro n hn
    rw [reg_func_ar_replicate n hn]
    constructor
    · exact (arElem_pos 0).le
    · have := arElem_zero_le
      linarith

theorem reg_func_ar_spec_witness :
    ([(0 : ℝ)] ≠ [] ∧
     ((0 ≤ reg_func_ar [(0 : ℝ)] ∧ reg_func_ar [(0 : ℝ)] < 1) ∧
      (∀ n : ℕ, 0 < n →
        0 ≤ reg_func_ar (List.replicate n (0 : ℝ)) ∧
        reg_func_ar (List.replicate n (0 : ℝ)) < 1 / 1000))) :=
  ⟨by simp, reg_func_ar_spec [0] (by simp)⟩
